import Mathlib

/-!
Verification of the cc-sdd enhanced workflow core.

The definitions below are a shallow embedding of the TypeScript sources:
  * `TodoEnhancer` (todo-enhancer): `enhanceTodos`, `addGitCommitRule`,
    `addLearningCapture`, `validateTodos`;
  * `InstructionManager` (instruction-manager): `createInstruction`,
    `sanitizeTaskName`;
  * `FDDWorkflowManager` (workflow-manager): `generateFDDWorkflow`;
  * `CoreWorkflowEnhancer` (core-workflow-enhancer): `enhanceSpecWorkflow`,
    `handleWorkflowError`.
JavaScript arrays become Lean lists, JS string `toLowerCase`/`includes`
become character-list operations, rejected promises become `Except`.
-/

/-- `TodoItem.status` enumeration from todo-enhancer. -/
inductive TStatus where
  | pending
  | in_progress
  | completed
deriving DecidableEq, Repr

/-- `TodoItem` from todo-enhancer: `{content, activeForm, status}`. -/
structure TodoItem where
  content : String
  activeForm : String
  status : TStatus
deriving DecidableEq, Repr

/-- `EnhancedTodoOptions` from todo-enhancer. -/
structure EnhancedTodoOptions where
  enforceGitCommit : Bool
  detectDocumentCreation : Bool
  autoLearningCapture : Bool
deriving DecidableEq, Repr

/-- The defaults installed by the `TodoEnhancer` constructor: all three
rules enabled. -/
def defaultOptions : EnhancedTodoOptions :=
  { enforceGitCommit := true
    detectDocumentCreation := true
    autoLearningCapture := true }

/-- JS `String.prototype.toLowerCase` restricted to the characters the
sanitizer and the keyword matcher can meet: ASCII letters are lowered,
everything else is unchanged. -/
def jsToLower (c : Char) : Char :=
  if 'A' ≤ c ∧ c ≤ 'Z' then Char.ofNat (c.toNat + 32) else c

/-- `startsWithL needle hay`: `needle` is an initial segment of `hay`. -/
def startsWithL : List Char → List Char → Bool
  | [], _ => true
  | _ :: _, [] => false
  | a :: as, b :: bs => a == b && startsWithL as bs

/-- `containsSub needle hay`: `needle` occurs contiguously in `hay`
(JS `String.prototype.includes`). -/
def containsSub (needle : List Char) : List Char → Bool
  | [] => startsWithL needle []
  | c :: rest => startsWithL needle (c :: rest) || containsSub needle rest

/-- `content.toLowerCase().includes(keyword.toLowerCase())` from the
keyword checks of todo-enhancer. -/
def includesLower (content keyword : String) : Bool :=
  containsSub (keyword.data.map jsToLower) (content.data.map jsToLower)

/-- `documentKeywords` of `addGitCommitRule`. -/
def documentKeywords : List String :=
  ["指示書", "instruction", "report", "報告書",
   "学習記録", "learning", "handoff", "引き継ぎ",
   "pattern", "パターン", "decision", "設計判断"]

/-- One todo triggers the commit rule: its content matches some document
keyword. -/
def docTrigger (td : TodoItem) : Bool :=
  documentKeywords.any (fun kw => includesLower td.content kw)

/-- `hasDocumentCreation` of `addGitCommitRule`. -/
def hasDocumentCreation (todos : List TodoItem) : Bool :=
  todos.any docTrigger

/-- The guard of `addGitCommitRule`: an existing git-commit task, matched
by the substring `"git commit"` or the substring `"commit"`. -/
def commitGuard (td : TodoItem) : Bool :=
  includesLower td.content "git commit" || includesLower td.content "commit"

/-- `hasGitCommit` of `addGitCommitRule`. -/
def hasGitCommitLoose (todos : List TodoItem) : Bool :=
  todos.any commitGuard

/-- The todo pushed by `addGitCommitRule`. -/
def commitTask : TodoItem :=
  { content := "Git commit documentation changes"
    activeForm := "Committing documentation changes"
    status := .pending }

/-- `TodoEnhancer.addGitCommitRule`. -/
def addGitCommitRule (todos : List TodoItem) : List TodoItem :=
  if hasDocumentCreation todos then
    if hasGitCommitLoose todos then todos else todos ++ [commitTask]
  else todos

/-- `learningTriggers` of `addLearningCapture`. -/
def learningTriggers : List String :=
  ["implement", "実装", "fix", "修正", "optimize", "最適化",
   "refactor", "リファクタ", "design", "設計"]

/-- One todo triggers the learning rule. -/
def learnTrigger (td : TodoItem) : Bool :=
  learningTriggers.any (fun kw => includesLower td.content kw)

/-- `hasLearningOpportunity` of `addLearningCapture`. -/
def hasLearningOpportunity (todos : List TodoItem) : Bool :=
  todos.any learnTrigger

/-- The guard of `addLearningCapture` (and the learning-capture check of
`validateTodos`, which is textually the same): an existing learning task. -/
def learningGuard (td : TodoItem) : Bool :=
  includesLower td.content "learning" || includesLower td.content "学習"

/-- `hasLearningTask` of `addLearningCapture`. -/
def hasLearningTask (todos : List TodoItem) : Bool :=
  todos.any learningGuard

/-- The todo inserted by `addLearningCapture`. -/
def learningTask : TodoItem :=
  { content := "Capture learning insights and patterns"
    activeForm := "Capturing learning insights and patterns"
    status := .pending }

/-- Matches `"git commit"`, the insertion-point search of
`addLearningCapture` and the strict check of `validateTodos`. -/
def gitCommitStrict (td : TodoItem) : Bool :=
  includesLower td.content "git commit"

/-- `todos.findIndex(todo => todo.content.toLowerCase().includes('git
commit'))`, with `none` for -1. -/
def findGitCommitIdx : List TodoItem → Option Nat
  | [] => none
  | td :: rest =>
    if gitCommitStrict td then some 0
    else (findGitCommitIdx rest).map (· + 1)

/-- `todos.splice(i, 0, x)`: insert `x` at position `i`. -/
def insertAt (i : Nat) (x : TodoItem) (l : List TodoItem) : List TodoItem :=
  l.take i ++ x :: l.drop i

/-- `TodoEnhancer.addLearningCapture`. -/
def addLearningCapture (todos : List TodoItem) : List TodoItem :=
  if hasLearningOpportunity todos then
    if hasLearningTask todos then todos
    else
      match findGitCommitIdx todos with
      | some i => insertAt i learningTask todos
      | none => todos ++ [learningTask]
  else todos

/-- `TodoEnhancer.enhanceTodos`: copy the list, then apply the two rules
under their option gates. -/
def enhanceTodos (opts : EnhancedTodoOptions) (todos : List TodoItem) :
    List TodoItem :=
  let t1 :=
    if opts.enforceGitCommit && opts.detectDocumentCreation then
      addGitCommitRule todos
    else todos
  if opts.autoLearningCapture then addLearningCapture t1 else t1

/-- The document keywords of `validateTodos` rule 1 (a strict subset of
`documentKeywords`). -/
def validateDocKeywords : List String :=
  ["指示書", "instruction", "report", "報告書"]

/-- One todo triggers validation rule 1. -/
def vDocTrigger (td : TodoItem) : Bool :=
  validateDocKeywords.any (fun kw => includesLower td.content kw)

/-- The significant-work keywords of `validateTodos` rule 2 (a strict
subset of `learningTriggers`). -/
def validateSigKeywords : List String :=
  ["implement", "fix", "design", "実装", "修正", "設計"]

/-- One todo triggers validation rule 2. -/
def vSigTrigger (td : TodoItem) : Bool :=
  validateSigKeywords.any (fun kw => includesLower td.content kw)

/-- Result record of `validateTodos`. -/
structure ValidationResult where
  valid : Bool
  violations : List String
deriving DecidableEq, Repr

/-- `TodoEnhancer.validateTodos`. Rule 1 flags a document task without a
`"git commit"` item; rule 2 flags significant work without a learning
item. `valid` is `violations.length === 0`. -/
def validateTodos (opts : EnhancedTodoOptions) (todos : List TodoItem) :
    ValidationResult :=
  let v1 : List String :=
    if opts.enforceGitCommit then
      if (todos.any vDocTrigger) && !(todos.any gitCommitStrict) then
        ["Document creation tasks must include git commit task"]
      else []
    else []
  let v2 : List String :=
    if opts.autoLearningCapture then
      if (todos.any vSigTrigger) && !(hasLearningTask todos) then
        ["Significant work should include learning capture task"]
      else []
    else []
  let violations := v1 ++ v2
  { valid := violations.length == 0, violations := violations }

/-! ### Instruction Manager (instruction-manager.ts) -/

/-- JS whitespace class `\s` (the code points matched by the regexes of
`sanitizeTaskName`). -/
def isJsSpace (c : Char) : Bool :=
  c == ' ' || c == '\t' || c == '\n' || c == '\r' ||
  c.toNat == 11 || c.toNat == 12 || c.toNat == 0xa0 || c.toNat == 0x1680 ||
  (Nat.ble 0x2000 c.toNat && Nat.ble c.toNat 0x200a) ||
  c.toNat == 0x2028 || c.toNat == 0x2029 || c.toNat == 0x202f ||
  c.toNat == 0x205f || c.toNat == 0x3000 || c.toNat == 0xfeff

/-- The characters kept by `.replace(/[^a-z0-9\s]/g, '')`. -/
def slugKeep (c : Char) : Bool :=
  c.isLower || c.isDigit || isJsSpace c

/-- `.replace(/\s+/g, '_')`: each maximal whitespace run becomes one
underscore. The flag remembers whether we are inside a run. -/
def collapseWs : Bool → List Char → List Char
  | _, [] => []
  | inRun, c :: rest =>
    if isJsSpace c then
      if inRun then collapseWs true rest else '_' :: collapseWs true rest
    else c :: collapseWs false rest

/-- `InstructionManager.sanitizeTaskName` (identical in report-manager):
lower-case, strip everything but `[a-z0-9\s]`, collapse whitespace to
`_`, then `substring(0, 30)`. -/
def sanitizeTaskName (task : String) : String :=
  ⟨(collapseWs false ((task.data.map jsToLower).filter slugKeep)).take 30⟩

/-- The `'claude' | 'gemini' | 'codex'` role union. -/
inductive Role where
  | claude
  | gemini
  | codex
deriving DecidableEq, Repr

/-- The literal string carried by a role value. -/
def roleStr : Role → String
  | .claude => "claude"
  | .gemini => "gemini"
  | .codex => "codex"

/-- `InstructionManager.capitalize` applied to a role string. -/
def roleCap : Role → String
  | .claude => "Claude"
  | .gemini => "Gemini"
  | .codex => "Codex"

/-- `roleMap` from `generateInstructionContent`. -/
def roleMap : Role → String
  | .claude => "Claude Code (司令塔)"
  | .gemini => "Gemini (実装)"
  | .codex => "Codex (品質ゲート)"

/-- Priority union of `InstructionRequest`. -/
inductive Priority where
  | high
  | medium
  | low
deriving DecidableEq, Repr

/-- The literal string carried by a priority value. -/
def prioStr : Priority → String
  | .high => "high"
  | .medium => "medium"
  | .low => "low"

/-- `InstructionRequest` from instruction-manager. -/
structure InstructionRequest where
  toRole : Role
  fromRole : Role
  task : String
  priority : Priority
  deadline : Option String
  context : Option String
  requirements : Option (List String)
  acceptanceCriteria : Option (List String)
deriving DecidableEq, Repr

/-- JS `a || b` over strings for an optional field: `none` and the empty
string both fall back to the default. -/
def strOrElse (o : Option String) (d : String) : String :=
  match o with
  | none => d
  | some s => if s == "" then d else s

/-- `xs?.map((x, i) => ...).join('\n') || default` — an absent list and
an empty join both fall back to the default. -/
def numberedOrElse (o : Option (List String)) (d : String) : String :=
  let s := match o with
    | none => ""
    | some xs =>
      String.intercalate "\n"
        ((List.range xs.length).zip xs |>.map
          (fun p => toString (p.1 + 1) ++ ". " ++ p.2))
  if s == "" then d else s

/-- `InstructionManager.getNextReceiver`. -/
def getNextReceiver : Role → String
  | .claude => "プロジェクト管理"
  | .gemini => "Codex (品質チェック)"
  | .codex => "Claude (結果報告)"

/-- The file name built by `createInstruction`:
`${from}_to_${to}_${timestamp}_${sanitizeTaskName(task)}.md`. -/
def instructionFileName (req : InstructionRequest) (timestamp : String) :
    String :=
  roleStr req.fromRole ++ "_to_" ++ roleStr req.toRole ++ "_" ++
    timestamp ++ "_" ++ sanitizeTaskName req.task ++ ".md"

/-- `InstructionManager.generateInstructionContent`: the markdown
template, line by line. -/
def generateInstructionContent (req : InstructionRequest)
    (timestamp : String) : String :=
  String.intercalate "\n"
    [ "# " ++ instructionFileName req timestamp
    , ""
    , "## 📋 " ++ roleMap req.fromRole ++ " → " ++ roleMap req.toRole ++
        " 指示書"
    , "**From**: " ++ roleMap req.fromRole
    , "**To**: " ++ roleMap req.toRole
    , "**Date**: " ++ timestamp
    , "**Task**: " ++ req.task
    , "**Priority**: " ++ prioStr req.priority
    , ""
    , "## 🎯 タスク概要"
    , strOrElse req.context "タスクの詳細説明"
    , ""
    , "## 📝 詳細要件"
    , numberedOrElse req.requirements "- 要件を具体的に記載"
    , ""
    , "## 📋 受入条件"
    , numberedOrElse req.acceptanceCriteria
        "1. 実装完了\n2. テスト通過\n3. 品質基準満足"
    , ""
    , "## ⏰ 期限・スケジュール"
    , "- **期限**: " ++ strOrElse req.deadline "相談"
    , "- **中間チェック**: 必要に応じて"
    , ""
    , "## 🔄 次のステップ"
    , "1. 実装開始"
    , "2. 進捗報告"
    , "3. 完了後は " ++ getNextReceiver req.toRole ++ " に報告"
    , ""
    , "## 📎 関連資料"
    , "- 要件定義: .kiro/specs/"
    , "- 設計書: docs/handover/decisions/"
    , "- 参考実装: 既存コードベース"
    , ""
    , "## 💬 備考・注意事項"
    , "AI役割分担システムによる自動生成指示書"
    , ""
    , "---"
    , "*指示者: " ++ roleStr req.fromRole ++ "*"
    , "*緊急度: " ++ prioStr req.priority ++ "*"
    , "*生成日時: " ++ timestamp ++ "*" ]

/-- `InstructionManager.createInstruction` (pure core, timestamp
injected, filesystem writes assumed to succeed). The source performs no
field validation: the body goes straight from file-name construction to
template rendering, so the result is always `ok (path, content)`. -/
def createInstruction (projectRoot : String) (req : InstructionRequest)
    (timestamp : String) : Except String (String × String) :=
  let fileName := instructionFileName req timestamp
  let path := projectRoot ++ "/docs/instructions/To" ++ roleCap req.toRole ++
    "/" ++ fileName
  Except.ok (path, generateInstructionContent req timestamp)

/-! ### FDD workflow manager (workflow-manager.ts) -/

/-- `FDDConfig` after the constructor's defaults were merged. -/
structure FDDConfig where
  enableMockups : Bool
  enablePrototyping : Bool
  enableUserTesting : Bool
  uiFramework : String
  designSystem : Option String
deriving DecidableEq, Repr

/-- `FDDPhase` from workflow-manager: `nextPhase?` is an optional plain
string. -/
structure FDDPhase where
  name : String
  description : String
  deliverables : List String
  nextPhase : Option String
deriving DecidableEq, Repr

/-- `FDDWorkflowManager.generateFDDWorkflow`: the base chain with the
user-test phase spliced in when `enableUserTesting` is set. -/
def generateFDDWorkflow (cfg : FDDConfig) : List FDDPhase :=
  [ { name := "ui-mockup"
      description := "Create UI mockups and wireframes based on user requirements"
      deliverables :=
        ["Wireframe designs", "UI component breakdown",
         "User interaction flows", "Design system components"]
      nextPhase := some "prototype" }
  , { name := "prototype"
      description := "Build interactive prototype for user validation"
      deliverables :=
        ["Interactive prototype", "Component library",
         "User interaction demos", "Technical feasibility analysis"]
      nextPhase :=
        if cfg.enableUserTesting then some "user-test"
        else some "implementation" } ] ++
  (if cfg.enableUserTesting then
    [ { name := "user-test"
        description := "Conduct user testing and gather feedback"
        deliverables :=
          ["User testing results", "Feedback analysis",
           "UI improvement recommendations", "Validated user flows"]
        nextPhase := some "implementation" } ]
  else []) ++
  [ { name := "implementation"
      description := "Implement production-ready components based on validated designs"
      deliverables :=
        ["Production components", "Unit tests",
         "Integration tests", "Component documentation"]
      nextPhase := some "integration" }
  , { name := "integration"
      description := "Integrate components into main application"
      deliverables :=
        ["Integrated feature", "E2E tests",
         "Performance benchmarks", "Deployment documentation"]
      nextPhase := none } ]

/-- The default configuration merged by the constructor (only
`enableUserTesting` varies in the claims). -/
def fddDefaults (enableUserTesting : Bool) : FDDConfig :=
  { enableMockups := true
    enablePrototyping := true
    enableUserTesting := enableUserTesting
    uiFramework := "react"
    designSystem := none }

/-! ### Workflow orchestrator (core-workflow-enhancer.ts) -/

/-- Report status union from report-manager. -/
inductive RStatus where
  | completed
  | in_progress
  | blocked
deriving DecidableEq, Repr

/-- The fields of the error `ReportData` built by `handleWorkflowError`. -/
structure WfReport where
  fromRole : Role
  toRole : Role
  task : String
  status : RStatus
  blockedItems : List String
  nextActions : List String
  notes : String
deriving DecidableEq, Repr

/-- `WorkflowContext.currentPhase` union. -/
inductive CorePhase where
  | requirements
  | design
  | tasks
  | implementation
  | quality
deriving DecidableEq, Repr

/-- The literal string carried by a phase value. -/
def corePhaseStr : CorePhase → String
  | .requirements => "requirements"
  | .design => "design"
  | .tasks => "tasks"
  | .implementation => "implementation"
  | .quality => "quality"

/-- `WorkflowContext` from core-workflow-enhancer. -/
structure WorkflowContext where
  projectRoot : String
  currentPhase : CorePhase
  featureName : String
  aiRole : Role
deriving DecidableEq, Repr

/-- The error report assembled inside `handleWorkflowError`: a
blocked-status report from the context's role to claude, carrying the
error message. -/
def errorReport (ctx : WorkflowContext) (msg : String) : WfReport :=
  { fromRole := ctx.aiRole
    toRole := .claude
    task := corePhaseStr ctx.currentPhase ++ " phase for " ++ ctx.featureName
    status := .blocked
    blockedItems :=
      ["Error in " ++ corePhaseStr ctx.currentPhase ++ " phase: " ++ msg]
    nextActions :=
      ["Review error details", "Apply fixes", "Retry phase execution"]
    notes := "Workflow error occurred during enhanced cc-sdd execution" }

/-- `CoreWorkflowEnhancer.handleWorkflowError`: awaits
`reportManager.createReport(errorReport)` with no try/catch of its own,
so a failing report write propagates. -/
def handleWorkflowError (createReport : WfReport → Except String String)
    (ctx : WorkflowContext) (msg : String) : Except String Unit := do
  let _ ← createReport (errorReport ctx msg)
  pure ()

/-- `CoreWorkflowEnhancer.enhanceSpecWorkflow`: try pre-setup, the
supplied `work`, post-cleanup; on failure run `handleWorkflowError` and
then re-throw the original error. A rejection inside
`handleWorkflowError` escapes the catch block instead. -/
def enhanceSpecWorkflow {α : Type} (preSetup : Except String Unit)
    (work : Except String α) (postCleanup : α → Except String Unit)
    (createReport : WfReport → Except String String)
    (ctx : WorkflowContext) : Except String α :=
  let body : Except String α := do
    preSetup
    let r ← work
    postCleanup r
    pure r
  match body with
  | .ok r => .ok r
  | .error e =>
    match handleWorkflowError createReport ctx e with
    | .ok _ => .error e
    | .error e2 => .error e2

/-! ### Array-mutation model for `enhanceTodos` (frame property) -/

/-- A heap of JS arrays of todos: array identity is the index into the
store, allocation appends. -/
abbrev TodoStore := List (List TodoItem)

/-- Dereference an array id. -/
def storeGet (s : TodoStore) (i : Nat) : List TodoItem :=
  (s[i]?).getD []

/-- `enhanceTodos` at the mutation level: `[...todos]` allocates a fresh
array; each enabled rule mutates that copy in place (push/splice) and
hands the same array on; the copy's id is returned. -/
def enhanceTodosAlloc (opts : EnhancedTodoOptions) (s : TodoStore)
    (i : Nat) : TodoStore × Nat :=
  let cid := s.length
  let s1 := s ++ [storeGet s i]
  let s2 :=
    if opts.enforceGitCommit && opts.detectDocumentCreation then
      s1.set cid (addGitCommitRule (storeGet s1 cid))
    else s1
  let s3 :=
    if opts.autoLearningCapture then
      s2.set cid (addLearningCapture (storeGet s2 cid))
    else s2
  (s3, cid)

/-! ### Concrete inputs used by counterexamples and witnesses -/

/-- A todo that matches the learning trigger `implement` and nothing
else. -/
def exImplement : TodoItem :=
  { content := "Implement feature X"
    activeForm := "Implementing feature X"
    status := .pending }

/-- A todo that matches the document keyword `instruction` and nothing
else. -/
def exInstructionDoc : TodoItem :=
  { content := "Create instruction doc"
    activeForm := "Creating instruction doc"
    status := .pending }

/-- A todo containing `commit` but not `git commit`. -/
def exCommitChanges : TodoItem :=
  { content := "commit changes"
    activeForm := "Committing changes"
    status := .pending }

/-- An instruction request with an empty `task`. -/
def exEmptyTaskReq : InstructionRequest :=
  { toRole := .gemini
    fromRole := .claude
    task := ""
    priority := .high
    deadline := none
    context := none
    requirements := none
    acceptanceCriteria := none }

/-- A concrete orchestration context. -/
def exContext : WorkflowContext :=
  { projectRoot := "/repo"
    currentPhase := .implementation
    featureName := "feature-a"
    aiRole := .gemini }

/-! ## Lemmas about the substring matcher -/

theorem startsWithL_iff (n h : List Char) :
    startsWithL n h = true ↔ ∃ t, h = n ++ t := by
  induction n generalizing h with
  | nil => simp [startsWithL]
  | cons a as ih =>
    cases h with
    | nil =>
      simp [startsWithL]
    | cons b bs =>
      simp only [startsWithL, Bool.and_eq_true, beq_iff_eq, ih]
      constructor
      · rintro ⟨rfl, t, rfl⟩
        exact ⟨t, rfl⟩
      · rintro ⟨t, ht⟩
        injection ht with h1 h2
        exact ⟨h1.symm, t, h2⟩

theorem containsSub_iff (n h : List Char) :
    containsSub n h = true ↔ ∃ s t, h = s ++ (n ++ t) := by
  induction h with
  | nil =>
    simp only [containsSub, startsWithL_iff]
    constructor
    · rintro ⟨t, ht⟩
      exact ⟨[], t, ht⟩
    · rintro ⟨s, t, ht⟩
      cases s with
      | nil => exact ⟨t, ht⟩
      | cons c cs => simp at ht
  | cons c rest ih =>
    simp only [containsSub, Bool.or_eq_true, startsWithL_iff, ih]
    constructor
    · rintro (⟨t, ht⟩ | ⟨s, t, ht⟩)
      · exact ⟨[], t, ht⟩
      · exact ⟨c :: s, t, by simp [ht]⟩
    · rintro ⟨s, t, ht⟩
      cases s with
      | nil => exact Or.inl ⟨t, ht⟩
      | cons c' cs =>
        injection ht with h1 h2
        exact Or.inr ⟨cs, t, h2⟩

theorem containsSub_trans {a b h : List Char}
    (hab : containsSub a b = true) (hbh : containsSub b h = true) :
    containsSub a h = true := by
  rcases (containsSub_iff a b).mp hab with ⟨s1, t1, rfl⟩
  rcases (containsSub_iff _ h).mp hbh with ⟨s2, t2, rfl⟩
  exact (containsSub_iff a _).mpr ⟨s2 ++ s1, t1 ++ t2, by simp⟩

/-- A content matching `"git commit"` also matches `"commit"`. -/
theorem includes_commit_of_includes_gitCommit {c : String}
    (h : includesLower c "git commit" = true) :
    includesLower c "commit" = true := by
  unfold includesLower at h ⊢
  exact containsSub_trans (by decide) h

/-! ## Lemmas about list `any` under the two rules -/

theorem any_insertAt (p : TodoItem → Bool) (i : Nat) (x : TodoItem)
    (l : List TodoItem) :
    (insertAt i x l).any p = (p x || l.any p) := by
  have h := List.take_append_drop i l
  calc (insertAt i x l).any p
      = ((l.take i).any p || (p x || (l.drop i).any p)) := by
        simp [insertAt, List.any_append]
    _ = (p x || ((l.take i).any p || (l.drop i).any p)) := by
        cases p x <;> cases (l.take i).any p <;> cases (l.drop i).any p <;> rfl
    _ = (p x || (l.take i ++ l.drop i).any p) := by rw [List.any_append]
    _ = (p x || l.any p) := by rw [h]

theorem any_addGitCommitRule (p : TodoItem → Bool) (l : List TodoItem) :
    (addGitCommitRule l).any p =
      (l.any p ||
        ((hasDocumentCreation l && !hasGitCommitLoose l) && p commitTask)) := by
  unfold addGitCommitRule
  cases hD : hasDocumentCreation l <;> cases hC : hasGitCommitLoose l <;>
    simp [List.any_append]

theorem any_addLearningCapture (p : TodoItem → Bool) (l : List TodoItem) :
    (addLearningCapture l).any p =
      (l.any p ||
        ((hasLearningOpportunity l && !hasLearningTask l) && p learningTask)) := by
  unfold addLearningCapture
  cases hO : hasLearningOpportunity l <;> cases hT : hasLearningTask l <;>
    simp
  cases hF : findGitCommitIdx l with
  | none => simp [List.any_append, Bool.or_comm]
  | some i => rw [any_insertAt]; cases p learningTask <;> cases l.any p <;> rfl

/-! ## Keyword facts about the two rule-inserted items -/

theorem docTrigger_commitTask : docTrigger commitTask = false := by decide

theorem learnTrigger_commitTask : learnTrigger commitTask = false := by decide

theorem learningGuard_commitTask : learningGuard commitTask = false := by decide

theorem gitCommitStrict_commitTask : gitCommitStrict commitTask = true := by
  decide

theorem vDocTrigger_commitTask : vDocTrigger commitTask = false := by decide

theorem docTrigger_learningTask : docTrigger learningTask = true := by decide

theorem learnTrigger_learningTask : learnTrigger learningTask = false := by
  decide

theorem learningGuard_learningTask : learningGuard learningTask = true := by
  decide

theorem commitGuard_learningTask : commitGuard learningTask = false := by
  decide

theorem gitCommitStrict_learningTask : gitCommitStrict learningTask = false := by
  decide

theorem vDocTrigger_learningTask : vDocTrigger learningTask = false := by decide

theorem vSigTrigger_learningTask : vSigTrigger learningTask = false := by decide

/-! ## Derived behaviour of the rules -/

/-- A predicate false on `commitTask` is unchanged by the commit rule. -/
theorem any_addGitCommitRule_of_false {p : TodoItem → Bool}
    (hp : p commitTask = false) (l : List TodoItem) :
    (addGitCommitRule l).any p = l.any p := by
  rw [any_addGitCommitRule, hp]
  cases l.any p <;> simp

/-- A predicate false on `learningTask` is unchanged by the learning
rule. -/
theorem any_addLearningCapture_of_false {p : TodoItem → Bool}
    (hp : p learningTask = false) (l : List TodoItem) :
    (addLearningCapture l).any p = l.any p := by
  rw [any_addLearningCapture, hp]
  cases l.any p <;> simp

/-- When the commit rule's trigger implies its guard, the rule is a
no-op. -/
theorem addGitCommitRule_noop (l : List TodoItem)
    (h : hasDocumentCreation l = true → hasGitCommitLoose l = true) :
    addGitCommitRule l = l := by
  unfold addGitCommitRule
  cases hD : hasDocumentCreation l with
  | false => simp
  | true => simp [h hD]

/-- When the learning rule's trigger implies its guard, the rule is a
no-op. -/
theorem addLearningCapture_noop (l : List TodoItem)
    (h : hasLearningOpportunity l = true → hasLearningTask l = true) :
    addLearningCapture l = l := by
  unfold addLearningCapture
  cases hO : hasLearningOpportunity l with
  | false => simp
  | true => simp [h hO]

/-- After the commit rule, a document trigger is always accompanied by a
commit guard. -/
theorem gitCommit_post (l : List TodoItem) :
    hasDocumentCreation (addGitCommitRule l) = true →
    hasGitCommitLoose (addGitCommitRule l) = true := by
  intro h
  unfold hasDocumentCreation at h
  unfold hasGitCommitLoose
  rw [any_addGitCommitRule_of_false docTrigger_commitTask] at h
  rw [any_addGitCommitRule]
  cases hC : hasGitCommitLoose l with
  | true =>
    unfold hasGitCommitLoose at hC
    simp [hC]
  | false =>
    unfold hasDocumentCreation hasGitCommitLoose at *
    simp [h, hC, commitGuard, commitTask]
    decide

/-- After the learning rule, a learning trigger is always accompanied by
a learning guard. -/
theorem learn_post (l : List TodoItem) :
    hasLearningOpportunity (addLearningCapture l) = true →
    hasLearningTask (addLearningCapture l) = true := by
  intro h
  unfold hasLearningOpportunity at h
  unfold hasLearningTask
  rw [any_addLearningCapture_of_false learnTrigger_learningTask] at h
  rw [any_addLearningCapture]
  cases hT : hasLearningTask l with
  | true =>
    unfold hasLearningTask at hT
    simp [hT]
  | false =>
    unfold hasLearningOpportunity hasLearningTask at *
    simp [h, hT, learningGuard_learningTask]

/-- With the default options `enhanceTodos` is the learning rule after
the commit rule. -/
theorem enhanceTodos_default (l : List TodoItem) :
    enhanceTodos defaultOptions l = addLearningCapture (addGitCommitRule l) :=
  rfl

/-- Any list on which both triggers imply their guards is a fixed point
of `enhanceTodos` with the default options. -/
theorem enhanceTodos_fixed (l : List TodoItem)
    (h1 : hasDocumentCreation l = true → hasGitCommitLoose l = true)
    (h2 : hasLearningOpportunity l = true → hasLearningTask l = true) :
    enhanceTodos defaultOptions l = l := by
  rw [enhanceTodos_default, addGitCommitRule_noop l h1,
    addLearningCapture_noop l h2]

/-- C1 (counterexample). The claim `enhance(enhance(L)) == enhance(L)`
fails at `L = [Implement feature X]`: the first run inserts the
learning-capture item, whose content matches the document keywords
`learning`/`pattern`, so the second run appends a git-commit item. -/
theorem enhance_not_idempotent_at_implement :
    enhanceTodos defaultOptions (enhanceTodos defaultOptions [exImplement]) ≠
      enhanceTodos defaultOptions [exImplement] := by decide

/-- C1 (amended). `enhanceTodos` with the default options is idempotent
from the second application on: a third run changes nothing, because
after two runs every trigger is accompanied by its enforcement item. -/
theorem enhance_enhance_idempotent (l : List TodoItem) :
    enhanceTodos defaultOptions
        (enhanceTodos defaultOptions (enhanceTodos defaultOptions l)) =
      enhanceTodos defaultOptions (enhanceTodos defaultOptions l) := by
  set Y := enhanceTodos defaultOptions l with hY
  have hTL_Y : hasLearningOpportunity Y = true → hasLearningTask Y = true := by
    rw [hY, enhanceTodos_default]
    exact learn_post _
  have hTL_Y1 : hasLearningOpportunity (addGitCommitRule Y) = true →
      hasLearningTask (addGitCommitRule Y) = true := by
    unfold hasLearningOpportunity hasLearningTask
    rw [any_addGitCommitRule_of_false learnTrigger_commitTask,
      any_addGitCommitRule_of_false learningGuard_commitTask]
    exact hTL_Y
  have hZ : enhanceTodos defaultOptions Y = addGitCommitRule Y := by
    rw [enhanceTodos_default, addLearningCapture_noop _ hTL_Y1]
  rw [hZ]
  exact enhanceTodos_fixed _ (gitCommit_post Y) hTL_Y1

/-! ## Structural lemmas for the never-deletes property -/

theorem sublist_insertAt (i : Nat) (x : TodoItem) (l : List TodoItem) :
    List.Sublist l (insertAt i x l) := by
  have h : List.Sublist (l.take i ++ l.drop i) (l.take i ++ x :: l.drop i) :=
    List.Sublist.append_left ((List.Sublist.refl (l.drop i)).cons x) (l.take i)
  simpa [insertAt] using h

theorem sublist_addGitCommitRule (l : List TodoItem) :
    List.Sublist l (addGitCommitRule l) := by
  unfold addGitCommitRule
  split
  · split
    · exact List.Sublist.refl l
    · exact List.sublist_append_left l [commitTask]
  · exact List.Sublist.refl l

theorem sublist_addLearningCapture (l : List TodoItem) :
    List.Sublist l (addLearningCapture l) := by
  unfold addLearningCapture
  split
  · split
    · exact List.Sublist.refl l
    · split
      · exact sublist_insertAt _ _ _
      · exact List.sublist_append_left l [learningTask]
  · exact List.Sublist.refl l

/-- C9. For every option setting and every todo list, `enhanceTodos` (a
total Lean function, so it never raises) returns a list that contains
the input as a sublist — all original items, in their original relative
order — and is therefore at least as long as the input. -/
theorem enhance_never_deletes (opts : EnhancedTodoOptions)
    (todos : List TodoItem) :
    List.Sublist todos (enhanceTodos opts todos) ∧
      todos.length ≤ (enhanceTodos opts todos).length := by
  have h : List.Sublist todos (enhanceTodos opts todos) := by
    obtain ⟨b1, b2, b3⟩ := opts
    cases b1 <;> cases b2 <;> cases b3 <;>
      simp only [enhanceTodos, Bool.and_self, Bool.and_true, Bool.and_false,
        Bool.true_and, Bool.false_and, if_true, if_false] <;>
      first
        | exact List.Sublist.refl _
        | exact sublist_addLearningCapture _
        | exact sublist_addGitCommitRule _
        | exact (sublist_addGitCommitRule _).trans (sublist_addLearningCapture _)
  exact ⟨h, h.length_le⟩

/-! ## The retrospective rule's insertion point -/

theorem findGitCommitIdx_eq_none (l : List TodoItem)
    (h : ∀ td ∈ l, gitCommitStrict td = false) :
    findGitCommitIdx l = none := by
  induction l with
  | nil => rfl
  | cons td rest ih =>
    have h0 : gitCommitStrict td = false := h td (by simp)
    have hr : findGitCommitIdx rest = none :=
      ih (fun x hx => h x (by simp [hx]))
    simp [findGitCommitIdx, h0, hr]

/-- C7. The retrospective rule: on
`[Implement feature X, Git commit documentation changes]` the default
`enhanceTodos` inserts the learning-capture item immediately before the
commit item; and whenever the rule fires on a list with no
`"git commit"` match, the learning-capture item is appended at the end. -/
theorem learning_inserted_before_commit :
    (enhanceTodos defaultOptions [exImplement, commitTask] =
      [exImplement, learningTask, commitTask]) ∧
    ∀ todos : List TodoItem, hasLearningOpportunity todos = true →
      hasLearningTask todos = false →
      (∀ td ∈ todos, gitCommitStrict td = false) →
      addLearningCapture todos = todos ++ [learningTask] := by
  constructor
  · decide
  · intro todos h1 h2 h3
    simp [addLearningCapture, h1, h2, findGitCommitIdx_eq_none todos h3]

/-- C7 (witness): the appended-at-the-end case at the concrete list
`[Implement feature X]`. -/
theorem learning_inserted_before_commit_witness :
    addLearningCapture [exImplement] = [exImplement] ++ [learningTask] :=
  learning_inserted_before_commit.2 [exImplement] (by decide) (by decide)
    (by decide)

/-- C6 (counterexample). The claim fixes only an `instruction` item and
the absence of `commit` items, but if the list also matches a learning
trigger the default `enhanceTodos` adds two items, not one:
`[Create instruction doc, Implement feature X]` grows from 2 to 4. -/
theorem commit_rule_adds_two_with_learning_trigger :
    (∃ td ∈ ([exInstructionDoc, exImplement] : List TodoItem),
        td.content = "Create instruction doc") ∧
    (∀ td ∈ ([exInstructionDoc, exImplement] : List TodoItem),
        includesLower td.content "commit" = false) ∧
    (enhanceTodos defaultOptions [exInstructionDoc, exImplement]).length ≠
      ([exInstructionDoc, exImplement] : List TodoItem).length + 1 := by
  refine ⟨⟨exInstructionDoc, by decide, rfl⟩, by decide, by decide⟩

/-- C6 (amended). If some item has content `"Create instruction doc"`,
no item's content contains `"commit"` (case-insensitive), and the
retrospective rule does not fire (any learning trigger is accompanied by
a learning item), then the default `enhanceTodos` appends exactly one
item, the pending git-commit todo, at the end. -/
theorem commit_appended_for_instruction_doc (L : List TodoItem)
    (h1 : ∃ td ∈ L, td.content = "Create instruction doc")
    (h2 : ∀ td ∈ L, includesLower td.content "commit" = false)
    (h3 : hasLearningOpportunity L = true → hasLearningTask L = true) :
    (enhanceTodos defaultOptions L).length = L.length + 1 ∧
      (enhanceTodos defaultOptions L).getLast? = some commitTask := by
  have hD : hasDocumentCreation L = true := by
    rcases h1 with ⟨td, hmem, hc⟩
    refine List.any_eq_true.mpr ⟨td, hmem, ?_⟩
    unfold docTrigger
    rw [hc]
    decide
  have hC : hasGitCommitLoose L = false := by
    refine List.any_eq_false.mpr ?_
    intro td hmem
    have hcm := h2 td hmem
    have hgc : includesLower td.content "git commit" = false := by
      cases hg : includesLower td.content "git commit" with
      | false => rfl
      | true =>
        exact absurd (includes_commit_of_includes_gitCommit hg)
          (by simp [hcm])
    simp [commitGuard, hgc, hcm]
  have hstep : addGitCommitRule L = L ++ [commitTask] := by
    unfold addGitCommitRule
    rw [hD, hC]
    simp
  have hnoop : addLearningCapture (L ++ [commitTask]) = L ++ [commitTask] := by
    apply addLearningCapture_noop
    intro hT
    unfold hasLearningOpportunity at hT
    rw [List.any_append] at hT
    have hTL : L.any learnTrigger = true := by
      simpa [learnTrigger_commitTask] using hT
    have hLn := h3 hTL
    unfold hasLearningTask at hLn ⊢
    rw [List.any_append]
    simp [hLn]
  rw [enhanceTodos_default, hstep, hnoop]
  exact ⟨by simp, List.getLast?_concat L⟩

/-- C6 (witness): the amended statement at `[Create instruction doc]`. -/
theorem commit_appended_for_instruction_doc_witness :
    (enhanceTodos defaultOptions [exInstructionDoc]).length =
        ([exInstructionDoc] : List TodoItem).length + 1 ∧
      (enhanceTodos defaultOptions [exInstructionDoc]).getLast? =
        some commitTask :=
  commit_appended_for_instruction_doc [exInstructionDoc]
    ⟨exInstructionDoc, by decide, rfl⟩ (by decide) (by decide)

/-! ## Agreement of `validateTodos` with the augmentation rules -/

theorem any_mono {p q : TodoItem → Bool}
    (hpq : ∀ td, p td = true → q td = true) (l : List TodoItem)
    (h : l.any p = true) : l.any q = true := by
  rcases List.any_eq_true.mp h with ⟨td, hmem, hp⟩
  exact List.any_eq_true.mpr ⟨td, hmem, hpq td hp⟩

/-- The commit rule either appends its item (trigger on, guard off) or
leaves the list unchanged with the trigger implying the guard. -/
theorem addGitCommitRule_cases (l : List TodoItem) :
    (hasDocumentCreation l = true ∧ hasGitCommitLoose l = false ∧
        addGitCommitRule l = l ++ [commitTask]) ∨
      (addGitCommitRule l = l ∧
        (hasDocumentCreation l = true → hasGitCommitLoose l = true)) := by
  unfold addGitCommitRule
  cases hD : hasDocumentCreation l with
  | false => exact Or.inr ⟨by simp, by simp⟩
  | true =>
    cases hC : hasGitCommitLoose l with
    | false => exact Or.inl ⟨rfl, rfl, by simp⟩
    | true => exact Or.inr ⟨by simp, fun _ => rfl⟩

/-- The validation document keywords are among the commit-rule document
keywords. -/
theorem vDocTrigger_le_docTrigger (td : TodoItem) :
    vDocTrigger td = true → docTrigger td = true := by
  unfold vDocTrigger docTrigger validateDocKeywords documentKeywords
  simp only [List.any_cons, List.any_nil, Bool.or_eq_true, Bool.or_false]
  tauto

/-- The validation significant-work keywords are among the learning
triggers. -/
theorem vSigTrigger_le_learnTrigger (td : TodoItem) :
    vSigTrigger td = true → learnTrigger td = true := by
  unfold vSigTrigger learnTrigger validateSigKeywords learningTriggers
  simp only [List.any_cons, List.any_nil, Bool.or_eq_true, Bool.or_false]
  tauto

/-- C2 (counterexample). `validate` demands a `"git commit"` item while
`enhance` is already satisfied by any `"commit"` item, so on
`[Create instruction doc, commit changes]` the enhanced list still fails
validation. -/
theorem validate_enhance_disagree_on_commit :
    (validateTodos defaultOptions
      (enhanceTodos defaultOptions
        [exInstructionDoc, exCommitChanges])).valid = false := by
  decide

/-- C2 (amended). If every item of `L` whose content contains `"commit"`
also contains `"git commit"`, then validating the default-enhanced list
succeeds. (The unrestricted claim fails because `enhance`'s commit guard
accepts a bare `"commit"` that `validate` rejects.) -/
theorem validate_after_enhance (L : List TodoItem)
    (h : ∀ td ∈ L, includesLower td.content "commit" = true →
      includesLower td.content "git commit" = true) :
    (validateTodos defaultOptions (enhanceTodos defaultOptions L)).valid =
      true := by
  set E := enhanceTodos defaultOptions L with hE
  have hv2 : (E.any vSigTrigger && !(hasLearningTask E)) = false := by
    cases hs : E.any vSigTrigger with
    | false => rfl
    | true =>
      have hT : hasLearningOpportunity E = true :=
        any_mono vSigTrigger_le_learnTrigger E hs
      have hLn : hasLearningTask E = true := by
        rw [hE, enhanceTodos_default] at hT ⊢
        exact learn_post _ hT
      simp [hLn]
  have hv1 : (E.any vDocTrigger && !(E.any gitCommitStrict)) = false := by
    cases hd : E.any vDocTrigger with
    | false => rfl
    | true =>
      have hgc : E.any gitCommitStrict = true := by
        rw [hE, enhanceTodos_default] at hd ⊢
        rw [any_addLearningCapture_of_false gitCommitStrict_learningTask]
        rw [any_addLearningCapture_of_false vDocTrigger_learningTask] at hd
        rcases addGitCommitRule_cases L with ⟨hD, hC, heq⟩ | ⟨heq, himp⟩
        · rw [heq, List.any_append]
          simp [gitCommitStrict_commitTask]
        · rw [heq] at hd ⊢
          have hdoc : hasDocumentCreation L = true :=
            any_mono vDocTrigger_le_docTrigger L hd
          have hC : hasGitCommitLoose L = true := himp hdoc
          unfold hasGitCommitLoose at hC
          rcases List.any_eq_true.mp hC with ⟨td, hmem, hcg⟩
          unfold commitGuard at hcg
          refine List.any_eq_true.mpr ⟨td, hmem, ?_⟩
          unfold gitCommitStrict
          simp only [Bool.or_eq_true] at hcg
          rcases hcg with hg | hcm
          · exact hg
          · exact h td hmem hcm
      simp [hgc]
  show (validateTodos defaultOptions E).valid = true
  unfold validateTodos
  simp only [defaultOptions, if_true]
  rw [hv1, hv2]
  simp

/-- C2 (witness): the amended statement at `[Create instruction doc]`. -/
theorem validate_after_enhance_witness :
    (∀ td ∈ ([exInstructionDoc] : List TodoItem),
        includesLower td.content "commit" = true →
        includesLower td.content "git commit" = true) ∧
    (validateTodos defaultOptions
        (enhanceTodos defaultOptions [exInstructionDoc])).valid = true :=
  ⟨by decide, validate_after_enhance [exInstructionDoc] (by decide)⟩

/-! ## Orchestrator failure path -/

/-- When `work` rejects (and pre-setup succeeded), the orchestrator
reduces to the catch block: error-report write, then re-throw. -/
theorem enhanceSpecWorkflow_err {α : Type}
    (postCleanup : α → Except String Unit)
    (createReport : WfReport → Except String String)
    (ctx : WorkflowContext) (e : String) :
    enhanceSpecWorkflow (Except.ok ()) (Except.error e : Except String α)
        postCleanup createReport ctx =
      match handleWorkflowError createReport ctx e with
      | .ok _ => .error e
      | .error e2 => .error e2 := rfl

/-- C3 (counterexample). If `work()` rejects with `"boom"` and the
blocked-report write itself rejects with `"disk full"`,
`enhanceSpecWorkflow` surfaces `"disk full"`, not the original error:
`handleWorkflowError` has no try/catch around the report write. -/
theorem orchestrator_report_failure_replaces_error :
    enhanceSpecWorkflow (Except.ok ())
        (Except.error "boom" : Except String Nat)
        (fun _ => Except.ok ()) (fun _ => Except.error "disk full")
        exContext =
      Except.error "disk full" ∧ ("disk full" : String) ≠ "boom" :=
  ⟨rfl, by decide⟩

/-- C3 (amended). If `work()` rejects with `e` and the blocked-Report
write succeeds, the orchestrator passes a blocked-status report to the
report writer and re-raises exactly `e`; a failing report write instead
propagates its own error (the previous theorem's counterexample). -/
theorem orchestrator_reraises_work_error {α : Type}
    (postCleanup : α → Except String Unit)
    (createReport : WfReport → Except String String)
    (ctx : WorkflowContext) (e : String)
    (hrep : ∀ r, (createReport r).isOk = true) :
    (errorReport ctx e).status = RStatus.blocked ∧
      enhanceSpecWorkflow (Except.ok ()) (Except.error e : Except String α)
        postCleanup createReport ctx = Except.error e := by
  refine ⟨rfl, ?_⟩
  have hc := hrep (errorReport ctx e)
  rw [enhanceSpecWorkflow_err]
  unfold handleWorkflowError
  cases hcr : createReport (errorReport ctx e) with
  | ok s => simp [hcr]
  | error e2 => rw [hcr] at hc; exact Bool.noConfusion hc

/-- C3 (witness): the amended statement at a concrete always-succeeding
report writer. -/
theorem orchestrator_reraises_work_error_witness :
    (errorReport exContext "boom").status = RStatus.blocked ∧
      enhanceSpecWorkflow (Except.ok ())
          (Except.error "boom" : Except String Nat)
          (fun _ => Except.ok ()) (fun _ => Except.ok "/repo/report.md")
          exContext =
        Except.error "boom" :=
  orchestrator_reraises_work_error (fun _ => Except.ok ())
    (fun _ => Except.ok "/repo/report.md") exContext "boom" (fun _ => rfl)

/-! ## Message builder -/

/-- C4 (counterexample). `createInstruction` with an empty `task` (all
roles present) does not fail with a validation error: it produces a
document. -/
theorem createInstruction_accepts_empty_task :
    (createInstruction "/repo" exEmptyTaskReq "202510110000").isOk = true :=
  rfl

/-- C4 (amended). `createInstruction` contains no validation at all: for
every request — empty `task` included — and every timestamp it returns a
document, whose slug component for an empty task is empty. -/
theorem createInstruction_never_fails (projectRoot : String)
    (req : InstructionRequest) (timestamp : String) :
    (createInstruction projectRoot req timestamp).isOk = true ∧
      sanitizeTaskName "" = "" :=
  ⟨rfl, rfl⟩

/-! ## FDD phase chain -/

/-- C5. `generateFDDWorkflow` yields
`[ui-mockup, prototype, implementation, integration]` without user
testing and `[ui-mockup, prototype, user-test, implementation,
integration]` with it; for every configuration the `integration` phase
carries no `nextPhase`. -/
theorem fdd_phase_chain :
    ((generateFDDWorkflow (fddDefaults false)).map FDDPhase.name =
      ["ui-mockup", "prototype", "implementation", "integration"]) ∧
    ((generateFDDWorkflow (fddDefaults true)).map FDDPhase.name =
      ["ui-mockup", "prototype", "user-test", "implementation",
       "integration"]) ∧
    ∀ cfg : FDDConfig,
      (generateFDDWorkflow cfg).all
        (fun ph => !(ph.name == "integration") || (ph.nextPhase == none)) =
      true := by
  refine ⟨by decide, by decide, ?_⟩
  intro cfg
  obtain ⟨m, p, ut, uiF, dS⟩ := cfg
  cases ut <;> rfl

/-! ## Slug sanitizer -/

/-- Every character that survives `collapseWs` over kept characters is a
lowercase letter, a digit, or the underscore separator. -/
theorem collapseWs_chars (l : List Char)
    (hl : ∀ c ∈ l, slugKeep c = true) (b : Bool) :
    ∀ c ∈ collapseWs b l, (c.isLower || c.isDigit || (c == '_')) = true := by
  induction l generalizing b with
  | nil =>
    intro c hc
    simp [collapseWs] at hc
  | cons a rest ih =>
    intro c hc
    have ha := hl a (by simp)
    have hrest : ∀ x ∈ rest, slugKeep x = true :=
      fun x hx => hl x (by simp [hx])
    unfold collapseWs at hc
    by_cases hs : isJsSpace a = true
    · rw [if_pos hs] at hc
      cases b with
      | true =>
        simp only [if_pos rfl] at hc
        exact ih hrest true c hc
      | false =>
        simp at hc
        rcases hc with rfl | hc'
        · rfl
        · exact ih hrest true c hc'
    · rw [if_neg hs] at hc
      rcases List.mem_cons.mp hc with rfl | hc'
      · have hs' : isJsSpace c = false := by
          cases hval : isJsSpace c with
          | false => rfl
          | true => exact absurd hval hs
        unfold slugKeep at ha
        rw [hs'] at ha
        simp only [Bool.or_false] at ha
        simp [Bool.or_eq_true] at ha ⊢
        tauto
      · exact ih hrest false c hc'

/-- C8. The slug derivation: `sanitizeTaskName "Design Phase!!"` is
`"design_phase"` (lower-cased, punctuation stripped, whitespace
collapsed to `_`); every output is at most 30 characters long and
consists only of lowercase letters, digits, and underscores. Being a
pure function, it is identical across repeated calls by construction. -/
theorem sanitize_slug_properties :
    sanitizeTaskName "Design Phase!!" = "design_phase" ∧
    (∀ t : String, (sanitizeTaskName t).length ≤ 30) ∧
    ∀ t : String,
      (sanitizeTaskName t).data.all
        (fun c => c.isLower || c.isDigit || (c == '_')) = true := by
  refine ⟨by decide, ?_, ?_⟩
  · intro t
    show ((collapseWs false
      ((t.data.map jsToLower).filter slugKeep)).take 30).length ≤ 30
    rw [List.length_take]
    exact min_le_left _ _
  · intro t
    apply List.all_eq_true.mpr
    intro c hc
    have hc' : c ∈ collapseWs false ((t.data.map jsToLower).filter slugKeep) :=
      List.take_subset _ _ hc
    exact collapseWs_chars _ (fun x hx => List.of_mem_filter hx) false c hc'

/-! ## Mutation-level frame property -/

/-- C10. At the array-mutation level, `enhanceTodos` never touches the
caller's array: after the call the input id still dereferences to the
original list (same length, same items, same order), the returned id is
a different array, and that fresh array holds exactly the pure
`enhanceTodos` result of the input. -/
theorem enhance_does_not_mutate_input (opts : EnhancedTodoOptions)
    (s : TodoStore) (i : Nat) (h : i < s.length) :
    storeGet (enhanceTodosAlloc opts s i).1 i = storeGet s i ∧
      (enhanceTodosAlloc opts s i).2 ≠ i ∧
      storeGet (enhanceTodosAlloc opts s i).1 (enhanceTodosAlloc opts s i).2 =
        enhanceTodos opts (storeGet s i) := by
  have hne : s.length ≠ i := Nat.ne_of_gt h
  have h1i : (s ++ [storeGet s i])[i]? = s[i]? := List.getElem?_append_left h
  have h1c : (s ++ [storeGet s i])[s.length]? = some (storeGet s i) :=
    List.getElem?_concat_length s _
  have hlt1 : s.length < (s ++ [storeGet s i]).length := by simp
  have hset1i : ∀ v : List TodoItem,
      ((s ++ [storeGet s i]).set s.length v)[i]? = s[i]? := by
    intro v
    rw [List.getElem?_set_ne hne, h1i]
  have hset1c : ∀ v : List TodoItem,
      ((s ++ [storeGet s i]).set s.length v)[s.length]? = some v := fun _ =>
    List.getElem?_set_self hlt1
  have hlt2 : ∀ v : List TodoItem,
      s.length < ((s ++ [storeGet s i]).set s.length v).length := by
    intro v
    simp
  have hset2i : ∀ v w : List TodoItem,
      (((s ++ [storeGet s i]).set s.length v).set s.length w)[i]? = s[i]? := by
    intro v w
    rw [List.getElem?_set_ne hne, hset1i]
  have hset2c : ∀ v w : List TodoItem,
      (((s ++ [storeGet s i]).set s.length v).set s.length w)[s.length]? =
        some w :=
    fun v _ => List.getElem?_set_self (hlt2 v)
  simp only [storeGet] at h1i h1c hset1i hset1c hset2i hset2c
  unfold enhanceTodosAlloc enhanceTodos
  cases hg : (opts.enforceGitCommit && opts.detectDocumentCreation) <;>
    cases ha : opts.autoLearningCapture <;>
    simp only [Bool.false_eq_true, if_true, if_false, ite_true, ite_false] <;>
    refine ⟨?_, fun hc => hne hc, ?_⟩
  · simp only [storeGet, h1i]
  · simp only [storeGet, h1c, Option.getD_some]
  · simp only [storeGet] at hset1i ⊢
    rw [hset1i]
  · simp only [storeGet] at h1c hset1c ⊢
    rw [h1c]
    simp only [Option.getD_some]
    rw [hset1c]
    rfl
  · simp only [storeGet] at hset1i ⊢
    rw [hset1i]
  · simp only [storeGet] at h1c hset1c ⊢
    rw [h1c]
    simp only [Option.getD_some]
    rw [hset1c]
    rfl
  · simp only [storeGet] at hset2i ⊢
    rw [hset2i]
  · simp only [storeGet] at h1c hset1c hset2c ⊢
    rw [h1c]
    simp only [Option.getD_some]
    rw [hset1c]
    simp only [Option.getD_some]
    rw [hset2c]
    rfl

/-- C10 (witness): the frame property at a one-array store. -/
theorem enhance_does_not_mutate_input_witness :
    storeGet (enhanceTodosAlloc defaultOptions [[exImplement]] 0).1 0 =
        storeGet [[exImplement]] 0 ∧
      (enhanceTodosAlloc defaultOptions [[exImplement]] 0).2 ≠ 0 ∧
      storeGet (enhanceTodosAlloc defaultOptions [[exImplement]] 0).1
          (enhanceTodosAlloc defaultOptions [[exImplement]] 0).2 =
        enhanceTodos defaultOptions (storeGet [[exImplement]] 0) :=
  enhance_does_not_mutate_input defaultOptions [[exImplement]] 0 (by decide)
